import Mathlib

/-!
A shallow embedding of the DuckyScript-to-HID-report compiler of
`sysfract.py` (functions `parse_key` and `compile_duckyscript`, tables
`KEYMAP` and `MODIFIERS`).  Script text is modelled as `List Char`,
byte output as `List Nat` (each entry a byte value), and the
diagnostics printed by the `except` handler as a list of pairs
(1-based line number, the line text as it stands when printed).

Python string primitives (`strip`, `splitlines`, `split`, `lower`,
`upper`, `int(...)`) are embedded for the ASCII range, which is the
range the key tables and command words live in; `int` parsing models
optional sign, ASCII decimal digits and the single-underscore-between-
digits rule.
-/

namespace Sysfract

/-- Whitespace characters recognised by Python `str.strip` / `str.split`
(ASCII range). -/
def pyWS (c : Char) : Bool :=
  c == ' ' || c == '\t' || c == '\n' || c == '\x0d' ||
  c == '\x0b' || c == '\x0c'

/-- Line-break characters recognised by Python `str.splitlines`. -/
def isLineBreak (c : Char) : Bool :=
  c == '\n' || c == '\x0d' || c == '\x0b' || c == '\x0c' ||
  c == '\x1c' || c == '\x1d' || c == '\x1e' || c == '\x85' ||
  c == Char.ofNat 0x2028 || c == Char.ofNat 0x2029

/-- Python `str.strip`: drop leading and trailing whitespace. -/
def pyStrip (l : List Char) : List Char :=
  ((l.dropWhile pyWS).reverse.dropWhile pyWS).reverse

/-- Worker for `pySplitlines`; `cur` is the current line, reversed, and
`afterCR` records that the previous character was a carriage return
(so that a following line feed is swallowed, CRLF being one break). -/
def pySplitlinesAux : List Char → List Char → Bool → List (List Char)
  | [], cur, _ => if cur.isEmpty then [] else [cur.reverse]
  | c :: rest, cur, afterCR =>
    if afterCR && (c == '\n') then pySplitlinesAux rest cur false
    else if c = '\x0d' then cur.reverse :: pySplitlinesAux rest [] true
    else if isLineBreak c then cur.reverse :: pySplitlinesAux rest [] false
    else pySplitlinesAux rest (c :: cur) false

/-- Python `str.splitlines`: split at line breaks, treating a final
break as a terminator rather than a separator. -/
def pySplitlines (l : List Char) : List (List Char) :=
  pySplitlinesAux l [] false

/-- The `KEYMAP` dict of the source: key names to HID usage codes. -/
def KEYMAP : List (List Char × Nat) :=
  [("a".data, 0x04), ("b".data, 0x05), ("c".data, 0x06), ("d".data, 0x07),
   ("e".data, 0x08), ("f".data, 0x09), ("g".data, 0x0A), ("h".data, 0x0B),
   ("i".data, 0x0C), ("j".data, 0x0D), ("k".data, 0x0E), ("l".data, 0x0F),
   ("m".data, 0x10), ("n".data, 0x11), ("o".data, 0x12), ("p".data, 0x13),
   ("q".data, 0x14), ("r".data, 0x15), ("s".data, 0x16), ("t".data, 0x17),
   ("u".data, 0x18), ("v".data, 0x19), ("w".data, 0x1A), ("x".data, 0x1B),
   ("y".data, 0x1C), ("z".data, 0x1D),
   ("1".data, 0x1E), ("2".data, 0x1F), ("3".data, 0x20), ("4".data, 0x21),
   ("5".data, 0x22), ("6".data, 0x23), ("7".data, 0x24), ("8".data, 0x25),
   ("9".data, 0x26), ("0".data, 0x27),
   ("enter".data, 0x28), ("esc".data, 0x29), ("backspace".data, 0x2A),
   ("tab".data, 0x2B), ("space".data, 0x2C),
   ("-".data, 0x2D), ("equals".data, 0x2E), ("[".data, 0x2F),
   ("]".data, 0x30), ("\\".data, 0x31),
   (";".data, 0x33), ("\'".data, 0x34), ("\x60".data, 0x35),
   (",".data, 0x36), (".".data, 0x37), ("/".data, 0x38),
   ("f1".data, 0x3A), ("f2".data, 0x3B), ("f3".data, 0x3C),
   ("f4".data, 0x3D), ("f5".data, 0x3E), ("f6".data, 0x3F),
   ("f7".data, 0x40), ("f8".data, 0x41), ("f9".data, 0x42),
   ("f10".data, 0x43), ("f11".data, 0x44), ("f12".data, 0x45),
   ("right".data, 0x4F), ("left".data, 0x50), ("down".data, 0x51),
   ("up".data, 0x52)]

/-- The `MODIFIERS` dict of the source: modifier names to bit masks. -/
def MODIFIERS : List (List Char × Nat) :=
  [("ctrl".data, 0x01), ("shift".data, 0x02), ("alt".data, 0x04),
   ("gui".data, 0x08), ("win".data, 0x08), ("windows".data, 0x08)]

/-- Python `key_str.split("-")`: split at every hyphen, keeping empty
pieces. `cur` is the current piece, reversed. -/
def splitDashAux : List Char → List Char → List (List Char)
  | [], cur => [cur.reverse]
  | c :: rest, cur =>
    if c = '-' then cur.reverse :: splitDashAux rest []
    else splitDashAux rest (c :: cur)

def splitDash (l : List Char) : List (List Char) := splitDashAux l []

/-- The token loop of `parse_key`: OR modifier masks, append key codes,
drop tokens that name neither. -/
def parseKeyLoop : List (List Char) → Nat → List Nat → Nat × List Nat
  | [], m, ks => (m, ks)
  | p :: rest, m, ks =>
    match List.lookup p MODIFIERS with
    | some mm => parseKeyLoop rest (m ||| mm) ks
    | none =>
      match List.lookup p KEYMAP with
      | some k => parseKeyLoop rest m (ks ++ [k])
      | none => parseKeyLoop rest m ks

/-- The tokens `parse_key` iterates over: lowercase the whole string,
split on hyphens, strip each piece. -/
def pkTokens (s : List Char) : List (List Char) :=
  (splitDash (s.map Char.toLower)).map pyStrip

/-- `parse_key` of the source: hyphen-separated combo string to
(modifier mask, ordered key-code list). -/
def parse_key (s : List Char) : Nat × List Nat :=
  parseKeyLoop (pkTokens s) 0 []

/-- Parse a nonempty ASCII digit run (with Python's underscore rule:
an underscore must sit between two digits). `acc` is the value so far. -/
def pyDigitsAux : List Char → Nat → Option Nat
  | [], acc => some acc
  | c :: rest, acc =>
    if c.isDigit then pyDigitsAux rest (acc * 10 + (c.toNat - 48))
    else if c = '_' then
      if (rest.head?.map Char.isDigit).getD false then pyDigitsAux rest acc
      else none
    else none

/-- Parse a nonempty unsigned decimal numeral. -/
def pyParseNat (l : List Char) : Option Nat :=
  match l with
  | [] => none
  | c :: rest => if c.isDigit then pyDigitsAux rest (c.toNat - 48) else none

/-- Python `int(...)` on an already-stripped string (the only way the
source calls it): optional sign, then a decimal numeral. -/
def pyParseInt (l : List Char) : Option Int :=
  match l with
  | [] => none
  | c :: rest =>
    if c = '+' then (pyParseNat rest).map Int.ofNat
    else if c = '-' then (pyParseNat rest).map (fun n => -Int.ofNat n)
    else (pyParseNat (c :: rest)).map Int.ofNat

/-- `max(1, (ms + 10) // 12)` of the DELAY branch (Python `//` is floor
division, hence `Int.fdiv`). -/
def delayReports (ms : Int) : Nat :=
  (max 1 ((ms + 10).fdiv 12)).toNat

/-- The shifted-punctuation set of the STRING branch. -/
def shiftedPunct : List Char :=
  ['!', '@', '#', '$', '%', '^', '&', '*', '(', ')', '_', '+',
   Char.ofNat 123, Char.ofNat 125, '|', ':', '\"', '<', '>', '?', '~']

/-- The key code a STRING character resolves to, following the order of
assignments in the source (table lookup of the lowercase form, then the
space and newline special cases). -/
def stringCharKey (char : Char) : Nat :=
  let key1 := (List.lookup [char.toLower] KEYMAP).getD 0
  let key2 := if char = ' ' then 0x2C else key1
  if char = '\n' then 0x28 else key2

/-- The modifier byte computed for a STRING character: shift for
uppercase letters and shifted punctuation, forced to 0 for newline. -/
def stringCharMod (char : Char) : Nat :=
  let mod1 := if char.isUpper || shiftedPunct.contains char then 2 else 0
  if char = '\n' then 0 else mod1

/-- Bytes the STRING loop emits for one character: a key-down report
plus 16 zero bytes when a key code was found, nothing otherwise. -/
def stringCharBytes (char : Char) : List Nat :=
  if stringCharKey char ≠ 0 then
    (stringCharMod char :: 0 :: stringCharKey char :: List.replicate 5 0) ++
      List.replicate 16 0
  else []

/-- The 8-byte packet of the generic combo branch: modifier byte,
reserved 0, then up to six key codes, zero-padded. -/
def mkPacket (m : Nat) (ks : List Nat) : List Nat :=
  m :: 0 :: (ks.take 6 ++ List.replicate (6 - (ks.take 6).length) 0)

/-- The four bare named-key command words. -/
def NAMED : List (List Char) :=
  ["ENTER".data, "TAB".data, "ESC".data, "BACKSPACE".data]

/-- Bytes of the named-key branch (`ENTER`/`TAB`/`ESC`/`BACKSPACE`). -/
def namedKeyOut (cmd : List Char) : List Nat :=
  let key := (List.lookup (cmd.map Char.toLower) KEYMAP).getD 0
  if key ≠ 0 then
    (0 :: 0 :: key :: List.replicate 5 0) ++ List.replicate 16 0
  else []

/-- Emission step of the generic key-combo branch: one packet plus two
release reports when any key resolved, nothing otherwise. -/
def comboEmit (m : Nat) (ks : List Nat) : List Nat :=
  if ks.isEmpty then [] else mkPacket m ks ++ List.replicate 16 0

/-- Bytes of the generic key-combo branch: resolve the command word and
(when nonempty) the argument, merge modifier masks with bitwise OR and
concatenate key lists, then emit. -/
def genericOut (cmd arg : List Char) : List Nat :=
  if arg.isEmpty then comboEmit (parse_key cmd).1 (parse_key cmd).2
  else
    comboEmit ((parse_key cmd).1 ||| (parse_key arg).1)
      ((parse_key cmd).2 ++ (parse_key arg).2)

/-- First whitespace-delimited token of a line (`parts[0]`). -/
def firstTok (l : List Char) : List Char :=
  l.takeWhile (fun c => !pyWS c)

/-- Remainder after the first token, stripped (`parts[1].strip()`,
or `""` when the line has a single token). -/
def restArg (l : List Char) : List Char :=
  pyStrip ((l.dropWhile (fun c => !pyWS c)).dropWhile pyWS)

/-- The comment/blank test of the line loop: empty after stripping, or
starting with the exact prefixes `REM`, `//`, `#`. -/
def isComment (line : List Char) : Bool :=
  line.isEmpty || "REM".data.isPrefixOf line ||
    "//".data.isPrefixOf line || "#".data.isPrefixOf line

/-- The DELAY branch: parse the argument with Python `int`; on success
emit `8 * max(1, (ms+10)//12)` zero bytes, on failure record one
diagnostic carrying the (stripped) line. -/
def delayOut (n : Nat) (line arg : List Char) :
    List Nat × List (Nat × List Char) :=
  match pyParseInt arg with
  | some ms => (List.replicate (8 * delayReports ms) 0, [])
  | none => ([], [(n, line)])

/-- One iteration of the line loop of `compile_duckyscript`: strip,
skip comments, classify by the uppercased first token, dispatch. -/
def compileLine (n : Nat) (raw : List Char) :
    List Nat × List (Nat × List Char) :=
  let line := pyStrip raw
  if isComment line then ([], [])
  else
    let cmd := (firstTok line).map Char.toUpper
    if cmd = "DELAY".data then delayOut n line (restArg line)
    else if cmd = "STRING".data then
      (((restArg line).map stringCharBytes).flatten, [])
    else if cmd ∈ NAMED then (namedKeyOut cmd, [])
    else (genericOut cmd (restArg line), [])

/-- The accumulating line loop (`binary +=` and the diagnostics the
`except` handler prints, in encounter order). -/
def compileLoop : List (List Char) → Nat → List Nat →
    List (Nat × List Char) → List Nat × List (Nat × List Char)
  | [], _, bin, dg => (bin, dg)
  | l :: rest, n, bin, dg =>
    compileLoop rest (n + 1) (bin ++ (compileLine (n + 1) l).1)
      (dg ++ (compileLine (n + 1) l).2)

/-- `compile_duckyscript` of the source: split the text into lines and
run the loop with 1-based line numbers. -/
def compile_duckyscript (text : String) :
    List Nat × List (Nat × List Char) :=
  compileLoop (pySplitlines text.data) 0 [] []

/-! Helper lemmas about the embedded Python string primitives. -/

theorem pyDigitsAux_chars (l : List Char) :
    ∀ (acc v : Nat), pyDigitsAux l acc = some v →
      ∀ c ∈ l, c.isDigit = true ∨ c = '_' := by
  induction l with
  | nil => intro acc v h c hc; simp at hc
  | cons a rest ih =>
    intro acc v h c hc
    rw [pyDigitsAux] at h
    by_cases hd : a.isDigit = true
    · rw [if_pos hd] at h
      rcases List.mem_cons.mp hc with rfl | hc
      · exact Or.inl hd
      · exact ih _ _ h c hc
    · rw [if_neg hd] at h
      by_cases hu : a = '_'
      · rw [if_pos hu] at h
        by_cases hh : ((rest.head?.map Char.isDigit).getD false) = true
        · rw [if_pos hh] at h
          rcases List.mem_cons.mp hc with rfl | hc
          · exact Or.inr hu
          · exact ih _ _ h c hc
        · rw [if_neg hh] at h; simp at h
      · rw [if_neg hu] at h; simp at h

theorem pyParseNat_chars (l : List Char) (v : Nat)
    (h : pyParseNat l = some v) :
    l ≠ [] ∧ ∀ c ∈ l, c.isDigit = true ∨ c = '_' := by
  cases l with
  | nil => simp [pyParseNat] at h
  | cons c rest =>
    refine ⟨by simp, ?_⟩
    rw [pyParseNat] at h
    by_cases hd : c.isDigit = true
    · rw [if_pos hd] at h
      intro x hx
      rcases List.mem_cons.mp hx with rfl | hx
      · exact Or.inl hd
      · exact pyDigitsAux_chars rest _ v h x hx
    · rw [if_neg hd] at h; simp at h

theorem pyParseInt_chars (l : List Char) (v : Int)
    (h : pyParseInt l = some v) :
    l ≠ [] ∧ ∀ c ∈ l, c.isDigit = true ∨ c = '_' ∨ c = '+' ∨ c = '-' := by
  cases l with
  | nil => simp [pyParseInt] at h
  | cons c rest =>
    refine ⟨by simp, ?_⟩
    rw [pyParseInt] at h
    by_cases hp : c = '+'
    · rw [if_pos hp] at h
      obtain ⟨n, hn, _⟩ := Option.map_eq_some'.mp h
      intro x hx
      rcases List.mem_cons.mp hx with rfl | hx
      · exact Or.inr (Or.inr (Or.inl hp))
      · rcases (pyParseNat_chars rest n hn).2 x hx with h1 | h1
        · exact Or.inl h1
        · exact Or.inr (Or.inl h1)
    · rw [if_neg hp] at h
      by_cases hm : c = '-'
      · rw [if_pos hm] at h
        obtain ⟨n, hn, _⟩ := Option.map_eq_some'.mp h
        intro x hx
        rcases List.mem_cons.mp hx with rfl | hx
        · exact Or.inr (Or.inr (Or.inr hm))
        · rcases (pyParseNat_chars rest n hn).2 x hx with h1 | h1
          · exact Or.inl h1
          · exact Or.inr (Or.inl h1)
      · rw [if_neg hm] at h
        obtain ⟨n, hn, _⟩ := Option.map_eq_some'.mp h
        intro x hx
        rcases (pyParseNat_chars _ n hn).2 x hx with h1 | h1
        · exact Or.inl h1
        · exact Or.inr (Or.inl h1)

theorem intChar_not_ws (c : Char)
    (h : c.isDigit = true ∨ c = '_' ∨ c = '+' ∨ c = '-') :
    pyWS c = false ∧ isLineBreak c = false := by
  rcases h with hd | rfl | rfl | rfl
  · constructor
    · by_contra hws
      rw [Bool.not_eq_false] at hws
      simp only [pyWS, Bool.or_eq_true, beq_iff_eq] at hws
      rcases hws with ((((h | h) | h) | h) | h) | h <;>
        (subst h; revert hd; decide)
    · by_contra hws
      rw [Bool.not_eq_false] at hws
      simp only [isLineBreak, Bool.or_eq_true, beq_iff_eq] at hws
      rcases hws with ((((((((h | h) | h) | h) | h) | h) | h) | h) | h) | h <;>
        (subst h; revert hd; decide)
  · decide
  · decide
  · decide

theorem dropWhile_append_head (p : Char → Bool) (l t : List Char)
    (h0 : l ≠ []) (h : ∀ c ∈ l, p c = false) :
    (l ++ t).dropWhile p = l ++ t := by
  obtain ⟨a, as, rfl⟩ := List.exists_cons_of_ne_nil h0
  rw [List.cons_append, List.dropWhile_cons, if_neg]
  simp [h a (List.mem_cons_self a as)]

theorem pyStrip_eq_self (l : List Char) (h : ∀ c ∈ l, pyWS c = false) :
    pyStrip l = l := by
  cases l with
  | nil => rfl
  | cons a as =>
    unfold pyStrip
    rw [List.dropWhile_cons, if_neg (by simp [h a (List.mem_cons_self a as)])]
    have h2 : (a :: as).reverse ≠ [] := by simp
    obtain ⟨b, bs, hb⟩ := List.exists_cons_of_ne_nil h2
    have hbm : b ∈ (a :: as) := by
      rw [← List.mem_reverse, hb]; exact List.mem_cons_self b bs
    rw [hb, List.dropWhile_cons, if_neg (by simp [h b hbm]), ← hb,
      List.reverse_reverse]

theorem pyStrip_delay (arg : List Char) (h0 : arg ≠ [])
    (h : ∀ c ∈ arg, pyWS c = false) :
    pyStrip ("DELAY ".data ++ arg) = "DELAY ".data ++ arg := by
  have h1 : List.dropWhile pyWS ("DELAY ".data ++ arg) = "DELAY ".data ++ arg := by
    rw [show "DELAY ".data ++ arg = 'D' :: ("ELAY ".data ++ arg) from rfl,
      List.dropWhile_cons, if_neg (by decide)]
  have h2 : List.dropWhile pyWS ("DELAY ".data ++ arg).reverse =
      ("DELAY ".data ++ arg).reverse := by
    rw [List.reverse_append]
    exact dropWhile_append_head pyWS arg.reverse _ (by simpa using h0)
      (fun c hc => h c (List.mem_reverse.mp hc))
  unfold pyStrip
  rw [h1, h2, List.reverse_reverse]

theorem restArg_delay (arg : List Char) (h0 : arg ≠ [])
    (h : ∀ c ∈ arg, pyWS c = false) :
    restArg ("DELAY ".data ++ arg) = arg := by
  unfold restArg
  have h1 : ("DELAY ".data ++ arg).dropWhile (fun c => !pyWS c) =
      ' ' :: arg := rfl
  rw [h1, List.dropWhile_cons, if_pos (by decide)]
  obtain ⟨a, as, rfl⟩ := List.exists_cons_of_ne_nil h0
  rw [List.dropWhile_cons, if_neg (by simp [h a (List.mem_cons_self a as)])]
  exact pyStrip_eq_self _ h

theorem compileLine_delay (n : Nat) (arg : List Char) (ms : Int)
    (h : pyParseInt arg = some ms) :
    compileLine n ("DELAY ".data ++ arg) =
      (List.replicate (8 * delayReports ms) 0, []) := by
  obtain ⟨h0, hch⟩ := pyParseInt_chars arg ms h
  have hws : ∀ c ∈ arg, pyWS c = false :=
    fun c hc => (intChar_not_ws c (hch c hc)).1
  simp only [compileLine]
  rw [pyStrip_delay arg h0 hws,
    show isComment ("DELAY ".data ++ arg) = false from rfl]
  simp only [Bool.false_eq_true, if_false]
  rw [show (firstTok ("DELAY ".data ++ arg)).map Char.toUpper =
      "DELAY".data from rfl, if_pos rfl, restArg_delay arg h0 hws]
  unfold delayOut
  rw [h]

theorem delayReports_coe (ms : Nat) :
    delayReports (ms : Int) = max 1 ((ms + 10) / 12) := by
  unfold delayReports
  have h1 : ((ms : Int) + 10) = ((ms + 10 : Nat) : Int) := by push_cast; ring
  have h2 : ((ms + 10 : Nat) : Int).fdiv 12 = (((ms + 10) / 12 : Nat) : Int) :=
    rfl
  rw [h1, h2]
  omega

theorem pySplitlinesAux_no_lb (l : List Char) :
    ∀ (cur : List Char) (flag : Bool),
      (∀ c ∈ l, isLineBreak c = false) → (cur ≠ [] ∨ l ≠ []) →
      pySplitlinesAux l cur flag = [cur.reverse ++ l] := by
  induction l with
  | nil =>
    intro cur flag _ hne
    rcases hne with hc | hl
    · rw [pySplitlinesAux, if_neg (by simpa using hc)]
      simp
    · simp at hl
  | cons c rest ih =>
    intro cur flag h hne
    have hc : isLineBreak c = false := h c (List.mem_cons_self c rest)
    have hcn : ¬(c = '\n') := by rintro rfl; revert hc; decide
    have hcr : ¬(c = '\x0d') := by rintro rfl; revert hc; decide
    rw [pySplitlinesAux, if_neg (by simp [hcn]), if_neg hcr,
      if_neg (by simp [hc]),
      ih (c :: cur) false (fun x hx => h x (List.mem_cons_of_mem c hx))
        (Or.inl (by simp))]
    simp

theorem pySplitlines_single (l : List Char) (h0 : l ≠ [])
    (h : ∀ c ∈ l, isLineBreak c = false) : pySplitlines l = [l] := by
  unfold pySplitlines
  rw [pySplitlinesAux_no_lb l [] false h (Or.inr h0)]
  simp

theorem compile_single (l : List Char) (h0 : l ≠ [])
    (h : ∀ c ∈ l, isLineBreak c = false) :
    compile_duckyscript (String.mk l) = compileLine 1 l := by
  unfold compile_duckyscript
  rw [show (String.mk l).data = l from rfl, pySplitlines_single l h0 h]
  simp [compileLoop]

/-! Decomposition of the accumulating line loop into independent
per-line outputs. -/

/-- Compositional rendering of the line loop: the bytes and diagnostics
of each line, concatenated in order, with 1-based line numbers starting
above `n`. -/
def compiledLines : Nat → List (List Char) → List Nat × List (Nat × List Char)
  | _, [] => ([], [])
  | n, l :: rest =>
    ((compileLine (n + 1) l).1 ++ (compiledLines (n + 1) rest).1,
     (compileLine (n + 1) l).2 ++ (compiledLines (n + 1) rest).2)

theorem compileLoop_eq (ls : List (List Char)) :
    ∀ (n : Nat) (bin : List Nat) (dg : List (Nat × List Char)),
      compileLoop ls n bin dg =
        (bin ++ (compiledLines n ls).1, dg ++ (compiledLines n ls).2) := by
  induction ls with
  | nil => intro n bin dg; simp [compileLoop, compiledLines]
  | cons l rest ih =>
    intro n bin dg
    rw [compileLoop, ih, compiledLines]
    simp [List.append_assoc]

theorem compiledLines_eq_map (ls : List (List Char)) :
    ∀ n, compiledLines n ls =
      ((((ls.enumFrom n).map fun p => (compileLine (p.1 + 1) p.2).1).flatten),
       (((ls.enumFrom n).map fun p => (compileLine (p.1 + 1) p.2).2).flatten)) := by
  induction ls with
  | nil => intro n; simp [compiledLines]
  | cons l rest ih =>
    intro n
    rw [compiledLines, List.enumFrom_cons]
    simp only [List.map_cons, List.flatten_cons, ih (n + 1)]

theorem compile_eq_compiledLines (text : String) :
    compile_duckyscript text = compiledLines 0 (pySplitlines text.data) := by
  unfold compile_duckyscript
  rw [compileLoop_eq]
  simp

theorem compileLine_diag (n : Nat) (l : List Char) :
    (compileLine n l).2 = [] ∨
      ((compileLine n l).1 = [] ∧ (compileLine n l).2 = [(n, pyStrip l)]) := by
  simp only [compileLine]
  split
  · exact Or.inl rfl
  split
  · unfold delayOut
    rcases h : pyParseInt (restArg (pyStrip l)) with _ | ms
    · simp [h]
    · simp [h]
  split
  · exact Or.inl rfl
  split
  · exact Or.inl rfl
  · exact Or.inl rfl

/-! The claims. -/

/-- C1: a `DELAY` line whose argument parses as a non-negative integer
`ms` compiles to exactly `max 1 ((ms + 10) / 12)` all-zero 8-byte frames
and nothing else; in particular `DELAY 0` and `DELAY 11` give one frame,
`DELAY 12` one frame, and `DELAY 14` two frames. -/
theorem delay_frame_count :
    (∀ (arg : List Char) (ms : Nat), pyParseInt arg = some (ms : Int) →
      compile_duckyscript (String.mk ("DELAY ".data ++ arg)) =
        (List.replicate (8 * max 1 ((ms + 10) / 12)) 0, [])) ∧
    compile_duckyscript "DELAY 0" = (List.replicate 8 0, []) ∧
    compile_duckyscript "DELAY 11" = (List.replicate 8 0, []) ∧
    compile_duckyscript "DELAY 12" = (List.replicate 8 0, []) ∧
    compile_duckyscript "DELAY 14" = (List.replicate 16 0, []) := by
  refine ⟨?_, by decide, by decide, by decide, by decide⟩
  intro arg ms h
  obtain ⟨h0, hch⟩ := pyParseInt_chars arg _ h
  have hlb : ∀ c ∈ "DELAY ".data ++ arg, isLineBreak c = false := by
    intro c hc
    rcases List.mem_append.mp hc with hc | hc
    · rw [show "DELAY ".data = ['D', 'E', 'L', 'A', 'Y', ' '] from rfl] at hc
      fin_cases hc <;> decide
    · exact (intChar_not_ws c (hch c hc)).2
  rw [compile_single _ (by simp) hlb, compileLine_delay 1 arg _ h,
    delayReports_coe]

/-- Witness for C1 at the concrete argument `14`. -/
theorem delay_frame_count_witness :
    pyParseInt "14".data = some ((14 : Nat) : Int) ∧
    compile_duckyscript (String.mk ("DELAY ".data ++ "14".data)) =
      (List.replicate (8 * max 1 ((14 + 10) / 12)) 0, []) :=
  ⟨by decide, delay_frame_count.1 "14".data 14 (by decide)⟩

/-- C2 counterexample: the diagnostic for a failed line carries the
stripped line text, not the original text — line 1 of the script
`"  DELAY x"` is recorded as `"DELAY x"`, without its leading blanks. -/
theorem diagnostic_text_trimmed_cex :
    (compile_duckyscript "  DELAY x").2 = [(1, "DELAY x".data)] ∧
    pySplitlines "  DELAY x".data = ["  DELAY x".data] ∧
    "DELAY x".data ≠ "  DELAY x".data := by
  refine ⟨by decide, by decide, by decide⟩

/-- C2 (amended: the diagnostic carries the line text trimmed of
surrounding whitespace): compilation never aborts — the output stream is
the concatenation, in original line order, of every line's bytes, the
diagnostics are the concatenation of every line's diagnostics in order,
and a failed line contributes no bytes and exactly one diagnostic with
its 1-based number and trimmed text. -/
theorem compile_per_line_containment :
    (∀ text : String,
      (compile_duckyscript text).1 =
        ((((pySplitlines text.data).enumFrom 0).map
          fun p => (compileLine (p.1 + 1) p.2).1).flatten) ∧
      (compile_duckyscript text).2 =
        ((((pySplitlines text.data).enumFrom 0).map
          fun p => (compileLine (p.1 + 1) p.2).2).flatten)) ∧
    ∀ (n : Nat) (l : List Char),
      (compileLine n l).2 = [] ∨
        ((compileLine n l).1 = [] ∧ (compileLine n l).2 = [(n, pyStrip l)]) := by
  constructor
  · intro text
    rw [compile_eq_compiledLines, compiledLines_eq_map]
    exact ⟨rfl, rfl⟩
  · exact compileLine_diag

/-! Frame structure of the output stream. -/

theorem mkPacket_len (m : Nat) (ks : List Nat) : (mkPacket m ks).length = 8 := by
  unfold mkPacket
  have h : (ks.take 6).length ≤ 6 := by
    simp [List.length_take]
  simp only [List.length_cons, List.length_append, List.length_replicate]
  omega

theorem stringCharBytes_len_dvd (c : Char) : 8 ∣ (stringCharBytes c).length := by
  unfold stringCharBytes
  split
  · norm_num
  · simp

theorem packet_group_len_dvd (m : Nat) (ks : List Nat) :
    8 ∣ (mkPacket m ks ++ List.replicate 16 0).length := by
  rw [List.length_append, mkPacket_len, List.length_replicate]
  decide

theorem namedKeyOut_dvd (cmd : List Char) : 8 ∣ (namedKeyOut cmd).length := by
  simp only [namedKeyOut]
  split
  · norm_num
  · simp

theorem comboEmit_dvd (m : Nat) (ks : List Nat) :
    8 ∣ (comboEmit m ks).length := by
  unfold comboEmit
  split
  · simp
  · exact packet_group_len_dvd m ks

theorem genericOut_dvd (cmd arg : List Char) :
    8 ∣ (genericOut cmd arg).length := by
  unfold genericOut
  split
  · exact comboEmit_dvd _ _
  · exact comboEmit_dvd _ _

theorem compileLine_len_dvd (n : Nat) (l : List Char) :
    8 ∣ (compileLine n l).1.length := by
  simp only [compileLine]
  split
  · simp
  split
  · unfold delayOut
    rcases h : pyParseInt (restArg (pyStrip l)) with _ | ms
    · simp [h]
    · simp [h]
  split
  · simp only [List.length_flatten]
    apply List.dvd_sum
    intro x hx
    simp only [List.map_map, List.mem_map] at hx
    obtain ⟨c, _, rfl⟩ := hx
    exact stringCharBytes_len_dvd c
  split
  · exact namedKeyOut_dvd _
  · exact genericOut_dvd _ _

theorem compiledLines_len_dvd (ls : List (List Char)) :
    ∀ n, 8 ∣ (compiledLines n ls).1.length := by
  induction ls with
  | nil => intro n; simp [compiledLines]
  | cons l rest ih =>
    intro n
    rw [compiledLines]
    simp only [List.length_append]
    exact Nat.dvd_add (compileLine_len_dvd _ _) (ih _)

/-- C8: the compiled byte stream of any script has length divisible by 8
(it is a flat concatenation of 8-byte reports). -/
theorem stream_length_multiple_of_8 (text : String) :
    8 ∣ (compile_duckyscript text).1.length := by
  rw [compile_eq_compiledLines]
  exact compiledLines_len_dvd _ 0

/-- An 8-byte report with reserved byte 1 zero and only modifier bits
0-3 possibly set in byte 0. -/
def GoodFrame (f : List Nat) : Prop :=
  ∃ b rest, f = b :: 0 :: rest ∧ b < 16 ∧ rest.length = 6

/-- A byte stream that is a concatenation of good frames. -/
def Framed (bytes : List Nat) : Prop :=
  ∃ fs : List (List Nat), bytes = fs.flatten ∧ ∀ f ∈ fs, GoodFrame f

theorem Framed_nil : Framed [] := ⟨[], rfl, by simp⟩

theorem Framed_single (f : List Nat) (h : GoodFrame f) : Framed f :=
  ⟨[f], by simp, by intro g hg; simp at hg; subst hg; exact h⟩

theorem Framed_append {a b : List Nat} (ha : Framed a) (hb : Framed b) :
    Framed (a ++ b) := by
  obtain ⟨fa, rfl, hfa⟩ := ha
  obtain ⟨fb, rfl, hfb⟩ := hb
  refine ⟨fa ++ fb, by simp, ?_⟩
  intro f hf
  rcases List.mem_append.mp hf with h | h
  · exact hfa f h
  · exact hfb f h

theorem GoodFrame_zero : GoodFrame (List.replicate 8 0) :=
  ⟨0, List.replicate 6 0, rfl, by decide, by simp⟩

theorem Framed_zeros (k : Nat) : Framed (List.replicate (8 * k) 0) := by
  induction k with
  | zero => simpa using Framed_nil
  | succ k ih =>
    rw [show 8 * (k + 1) = 8 + 8 * k from by ring, List.replicate_add]
    exact Framed_append (Framed_single _ GoodFrame_zero) ih

theorem Framed_group (m k : Nat) (hm : m < 16) :
    Framed ((m :: 0 :: k :: List.replicate 5 0) ++ List.replicate 16 0) :=
  Framed_append
    (Framed_single _ ⟨m, k :: List.replicate 5 0, rfl, hm, by simp⟩)
    (Framed_zeros 2)

theorem lookup_MODIFIERS_lt (p : List Char) (m : Nat)
    (h : List.lookup p MODIFIERS = some m) : m < 16 := by
  unfold MODIFIERS at h
  simp only [List.lookup] at h
  repeat' split at h
  all_goals (try simp_all)
  all_goals omega

theorem or16 : ∀ a, a < 16 → ∀ b, b < 16 → a ||| b < 16 := by decide

theorem parseKeyLoop_mod_lt (ps : List (List Char)) :
    ∀ (m : Nat) (ks : List Nat), m < 16 → (parseKeyLoop ps m ks).1 < 16 := by
  induction ps with
  | nil => intro m ks h; simpa [parseKeyLoop] using h
  | cons p rest ih =>
    intro m ks h
    rcases hm : List.lookup p MODIFIERS with _ | mm
    · rcases hk : List.lookup p KEYMAP with _ | k
      · simp only [parseKeyLoop, hm, hk]
        exact ih m ks h
      · simp only [parseKeyLoop, hm, hk]
        exact ih m _ h
    · simp only [parseKeyLoop, hm]
      exact ih _ ks (or16 m h mm (lookup_MODIFIERS_lt p mm hm))

theorem parse_key_mod_lt (s : List Char) : (parse_key s).1 < 16 :=
  parseKeyLoop_mod_lt _ 0 [] (by decide)

theorem stringCharMod_lt (c : Char) : stringCharMod c < 16 := by
  simp only [stringCharMod]
  split
  · decide
  · split
    · decide
    · decide

theorem stringCharBytes_framed (c : Char) : Framed (stringCharBytes c) := by
  unfold stringCharBytes
  split
  · exact Framed_group _ _ (stringCharMod_lt c)
  · exact Framed_nil

theorem flatten_framed (L : List (List Nat)) (h : ∀ x ∈ L, Framed x) :
    Framed L.flatten := by
  induction L with
  | nil => simpa using Framed_nil
  | cons a as ih =>
    rw [List.flatten_cons]
    exact Framed_append (h a (List.mem_cons_self a as))
      (ih fun x hx => h x (List.mem_cons_of_mem a hx))

theorem mkPacket_framed (m : Nat) (ks : List Nat) (hm : m < 16) :
    Framed (mkPacket m ks ++ List.replicate 16 0) := by
  refine Framed_append (Framed_single _ ⟨m, _, rfl, hm, ?_⟩) (Framed_zeros 2)
  have h : (ks.take 6).length ≤ 6 := by simp [List.length_take]
  simp only [List.length_append, List.length_replicate]
  omega

theorem namedKeyOut_framed (cmd : List Char) : Framed (namedKeyOut cmd) := by
  simp only [namedKeyOut]
  split
  · exact Framed_group 0 _ (by decide)
  · exact Framed_nil

theorem comboEmit_framed (m : Nat) (ks : List Nat) (hm : m < 16) :
    Framed (comboEmit m ks) := by
  unfold comboEmit
  split
  · exact Framed_nil
  · exact mkPacket_framed _ _ hm

theorem genericOut_framed (cmd arg : List Char) : Framed (genericOut cmd arg) := by
  unfold genericOut
  split
  · exact comboEmit_framed _ _ (parse_key_mod_lt _)
  · exact comboEmit_framed _ _
      (or16 _ (parse_key_mod_lt _) _ (parse_key_mod_lt _))

theorem compileLine_framed (n : Nat) (l : List Char) :
    Framed (compileLine n l).1 := by
  simp only [compileLine]
  split
  · exact Framed_nil
  split
  · unfold delayOut
    rcases h : pyParseInt (restArg (pyStrip l)) with _ | ms
    · simp only [h]
      exact Framed_nil
    · simp only [h]
      exact Framed_zeros (delayReports ms)
  split
  · apply flatten_framed
    intro x hx
    simp only [List.mem_map] at hx
    obtain ⟨c, _, rfl⟩ := hx
    exact stringCharBytes_framed c
  split
  · exact namedKeyOut_framed _
  · exact genericOut_framed _ _

theorem compiledLines_framed (ls : List (List Char)) :
    ∀ n, Framed (compiledLines n ls).1 := by
  induction ls with
  | nil => intro n; simpa [compiledLines] using Framed_nil
  | cons l rest ih =>
    intro n
    rw [compiledLines]
    exact Framed_append (compileLine_framed _ _) (ih _)

/-- C9: the compiled stream of any script decomposes into 8-byte
reports; in each, byte 1 (reserved) is 0 and byte 0 (the modifier mask)
is below 16, so only bits 0-3 (ctrl, shift, alt, gui) are ever set. -/
theorem report_reserved_and_modifier_bits (text : String) :
    ∃ fs : List (List Nat), (compile_duckyscript text).1 = fs.flatten ∧
      ∀ f ∈ fs, ∃ b rest, f = b :: 0 :: rest ∧ b < 16 ∧ rest.length = 6 := by
  rw [compile_eq_compiledLines]
  exact compiledLines_framed _ 0

theorem parseKeyLoop_keys (ps : List (List Char)) :
    ∀ (m : Nat) (ks : List Nat),
      (parseKeyLoop ps m ks).2 = ks ++ ps.filterMap
        (fun p => if (List.lookup p MODIFIERS).isSome then none
          else List.lookup p KEYMAP) := by
  induction ps with
  | nil => intro m ks; simp [parseKeyLoop]
  | cons p rest ih =>
    intro m ks
    rcases hm : List.lookup p MODIFIERS with _ | mm
    · rcases hk : List.lookup p KEYMAP with _ | k
      · simp only [parseKeyLoop, hm, hk, ih]
        simp [List.filterMap_cons, hm, hk]
      · simp only [parseKeyLoop, hm, hk, ih]
        simp [List.filterMap_cons, hm, hk]
    · simp only [parseKeyLoop, hm, ih]
      simp [List.filterMap_cons, hm]

/-- C3 counterexample: `parse_key` does not drop a repeated key — the
combo string `a-a` yields the key code of `a` twice, so the returned
list has a duplicate. -/
theorem parse_key_duplicates_cex :
    (parse_key "a-a".data).2 = [4, 4] ∧
    ¬ List.Nodup (parse_key "a-a".data).2 := by
  refine ⟨by decide, by decide⟩

/-- C3 (amended: duplicate keys are kept, not dropped): for every input,
the resolver's key list is exactly the key codes of the tokens in order,
where tokens naming a modifier or naming nothing are silently dropped
and a repeated key token appends its code again; no error is ever
produced. -/
theorem parse_key_token_filter :
    (∀ s : List Char,
      (parse_key s).2 = (pkTokens s).filterMap
        (fun p => if (List.lookup p MODIFIERS).isSome then none
          else List.lookup p KEYMAP)) ∧
    parse_key "a-a".data = (0, [4, 4]) := by
  refine ⟨?_, by decide⟩
  intro s
  unfold parse_key
  rw [parseKeyLoop_keys]
  simp

/-- C4 counterexample: comment classification is case-sensitive — the
line `rem a` has first word `rem` (which uppercases to `REM`), yet it is
compiled as a generic key combo and emits a press of `a`, 24 bytes. -/
theorem lowercase_rem_emits_cex :
    (firstTok (pyStrip "rem a".data)).map Char.toUpper = "REM".data ∧
    (compile_duckyscript "rem a").1 =
      [0, 0, 4, 0, 0, 0, 0, 0] ++ List.replicate 16 0 ∧
    (compile_duckyscript "rem a").1 ≠ [] := by
  refine ⟨by decide, by decide, by decide⟩

/-- C4 (amended: only the exact uppercase spelling counts): every line
whose first whitespace-delimited word is the literal `REM` produces no
bytes and no diagnostic. -/
theorem uppercase_rem_comment (n : Nat) (l : List Char)
    (h : firstTok (pyStrip l) = "REM".data) :
    compileLine n l = ([], []) := by
  have hpre : "REM".data <+: pyStrip l := by
    rw [← h]
    exact List.takeWhile_prefix _
  have hcom : isComment (pyStrip l) = true := by
    unfold isComment
    rw [List.isPrefixOf_iff_prefix.mpr hpre]
    simp
  simp [compileLine, hcom]

/-- Witness for C4 at the line `REM hello`. -/
theorem uppercase_rem_comment_witness :
    firstTok (pyStrip "REM hello".data) = "REM".data ∧
    compileLine 1 "REM hello".data = ([], []) :=
  ⟨by decide, uppercase_rem_comment 1 "REM hello".data (by decide)⟩

/-- C5 counterexample: `DELAY -5` parses (Python `int` accepts a sign),
emits one zero frame and produces no diagnostic, though `-5` is not a
non-negative integer. -/
theorem negative_delay_cex :
    pyParseInt "-5".data = some (-5) ∧
    compile_duckyscript "DELAY -5" = (List.replicate 8 0, []) := by
  refine ⟨by decide, by decide⟩

theorem fdiv12_nonpos (a : Int) (h : a < 12) : a.fdiv 12 ≤ 0 := by
  rcases a with k | k
  · have hk : k < 12 := by
      rw [Int.ofNat_eq_natCast] at h
      exact_mod_cast h
    interval_cases k <;> decide
  · have h1 : Int.fdiv (Int.negSucc k) 12 = Int.negSucc (k / 12) := rfl
    rw [h1]
    exact le_of_lt (Int.negSucc_lt_zero _)

theorem delayReports_le_one (ms : Int) (h : ms ≤ 1) : delayReports ms = 1 := by
  unfold delayReports
  have h1 : (ms + 10).fdiv 12 ≤ 0 := fdiv12_nonpos _ (by omega)
  rw [max_eq_left (by omega)]
  rfl

/-- C5 (amended: only a remainder that fails Python `int` parsing gives
a diagnostic; a negative integer is accepted): a DELAY line whose
remainder does not parse as an integer emits no frames and exactly one
diagnostic for that line, and a DELAY line whose remainder parses as an
integer `ms ≤ 1` — including every negative value — emits one zero
frame and no diagnostic. -/
theorem delay_parse_failure_diagnostic :
    (∀ (n : Nat) (l : List Char),
      isComment (pyStrip l) = false →
      (firstTok (pyStrip l)).map Char.toUpper = "DELAY".data →
      pyParseInt (restArg (pyStrip l)) = none →
      compileLine n l = ([], [(n, pyStrip l)])) ∧
    (∀ (n : Nat) (arg : List Char) (ms : Int), pyParseInt arg = some ms →
      ms ≤ 1 →
      compileLine n ("DELAY ".data ++ arg) = (List.replicate 8 0, [])) := by
  constructor
  · intro n l hcom hcmd hparse
    simp only [compileLine, hcom, hcmd]
    rw [if_pos trivial]
    unfold delayOut
    rw [hparse]
    simp
  · intro n arg ms h hle
    rw [compileLine_delay n arg ms h, delayReports_le_one ms hle]

/-- Witness for C5: the non-numeric argument `abc` and the negative
argument `-5`. -/
theorem delay_parse_failure_diagnostic_witness :
    (isComment (pyStrip "DELAY abc".data) = false ∧
      (firstTok (pyStrip "DELAY abc".data)).map Char.toUpper = "DELAY".data ∧
      pyParseInt (restArg (pyStrip "DELAY abc".data)) = none ∧
      compileLine 1 "DELAY abc".data =
        ([], [(1, pyStrip "DELAY abc".data)])) ∧
    (pyParseInt "-5".data = some (-5) ∧ (-5 : Int) ≤ 1 ∧
      compileLine 1 ("DELAY ".data ++ "-5".data) =
        (List.replicate 8 0, [])) :=
  ⟨⟨by decide, by decide, by decide,
      delay_parse_failure_diagnostic.1 1 "DELAY abc".data (by decide)
        (by decide) (by decide)⟩,
    ⟨by decide, by decide,
      delay_parse_failure_diagnostic.2 1 "-5".data (-5) (by decide)
        (by decide)⟩⟩

/-- C6: `STRING A` compiles to one report with the shift bit and the
key code of `a` followed by 16 zero bytes (24 bytes); `STRING ab` to two
such 24-byte groups without shift (48 bytes); and every character whose
key resolves emits exactly one key-down report followed by two all-zero
reports. -/
theorem string_encoding :
    compile_duckyscript "STRING A" =
      ([2, 0, 4, 0, 0, 0, 0, 0] ++ List.replicate 16 0, []) ∧
    compile_duckyscript "STRING ab" =
      (([0, 0, 4, 0, 0, 0, 0, 0] ++ List.replicate 16 0) ++
        ([0, 0, 5, 0, 0, 0, 0, 0] ++ List.replicate 16 0), []) ∧
    ∀ c : Char, stringCharBytes c ≠ [] →
      stringCharKey c ≠ 0 ∧
      stringCharBytes c =
        (stringCharMod c :: 0 :: stringCharKey c :: List.replicate 5 0) ++
          List.replicate 16 0 := by
  refine ⟨by decide, by decide, ?_⟩
  intro c hne
  by_cases hk : stringCharKey c = 0
  · exfalso
    apply hne
    unfold stringCharBytes
    rw [if_neg (by simp [hk])]
  · refine ⟨hk, ?_⟩
    unfold stringCharBytes
    rw [if_pos hk]

/-- Witness for C6 at the character `A`. -/
theorem string_encoding_witness :
    stringCharBytes 'A' ≠ [] ∧
    (stringCharKey 'A' ≠ 0 ∧
      stringCharBytes 'A' =
        (stringCharMod 'A' :: 0 :: stringCharKey 'A' :: List.replicate 5 0) ++
          List.replicate 16 0) :=
  ⟨by decide, string_encoding.2.2 'A' (by decide)⟩

/-- C7: a combo line naming seven keys (`a-b-c-d-e-f-g`, whose resolver
list has seven codes) truncates to the first six without error, and
`GUI r` yields one 24-byte group with the gui bit, `r`'s code in key
slot 0 and zeros elsewhere. -/
theorem combo_truncation_gui_r :
    (parse_key "a-b-c-d-e-f-g".data).2 = [4, 5, 6, 7, 8, 9, 10] ∧
    compile_duckyscript "a-b-c-d-e-f-g" =
      ([0, 0, 4, 5, 6, 7, 8, 9] ++ List.replicate 16 0, []) ∧
    compile_duckyscript "GUI r" =
      ([8, 0, 0x15, 0, 0, 0, 0, 0] ++ List.replicate 16 0, []) := by
  refine ⟨by decide, by decide, by decide⟩

/-- C10: every character of the shifted-punctuation set gets the shift
bit computed but resolves to no key code, so a STRING line emits nothing
for it; a STRING line of all 21 such characters compiles to no bytes. -/
theorem shifted_punct_skipped :
    (∀ c ∈ shiftedPunct,
      stringCharMod c = 2 ∧ stringCharKey c = 0 ∧ stringCharBytes c = []) ∧
    compile_duckyscript "STRING !@#$%^&*()_+\x7b\x7d|:\"<>?~" = ([], []) := by
  refine ⟨by decide, by decide⟩

/-- Witness for C10 at the character `!`. -/
theorem shifted_punct_skipped_witness :
    '!' ∈ shiftedPunct ∧
    (stringCharMod '!' = 2 ∧ stringCharKey '!' = 0 ∧
      stringCharBytes '!' = []) :=
  ⟨by decide, shifted_punct_skipped.1 '!' (by decide)⟩

/-- Witness for C9 at the script `GUI r`. -/
theorem report_reserved_and_modifier_bits_witness :
    ∃ fs : List (List Nat), (compile_duckyscript "GUI r").1 = fs.flatten ∧
      ∀ f ∈ fs, ∃ b rest, f = b :: 0 :: rest ∧ b < 16 ∧ rest.length = 6 :=
  report_reserved_and_modifier_bits "GUI r"

end Sysfract
